import Mathlib

/-!
Verification development for the vismap repository (Python).

The definitions below are shallow embeddings of the functions in
`src/vismap/transforms.py`, `src/vismap/tile_providers.py` and
`src/vismap/view.py`.  Pure numeric code is embedded over `ℝ`; container
code (tile merging, the image dictionary, the command queue) is embedded
over lists; fallible code returns `Except`.
-/

namespace Vismap

/-! ## transforms.py -/

/-- Radius of the Earth in meters, from `transforms.py` (`R = 6378137`). -/
def R : ℝ := 6378137

/-- Embedding of `np.radians`: degrees to radians. -/
noncomputable def radians (d : ℝ) : ℝ := d * (Real.pi / 180)

/-- Embedding of `np.degrees`: radians to degrees. -/
noncomputable def degrees (r : ℝ) : ℝ := r * (180 / Real.pi)

/-- Embedding of `MercatorTransform.map` (`transforms.py`, lines 130-139),
acting on a single `(lon, lat, z)` coordinate.  The source computes
`lambda_ = np.radians(coords[:, 0])`, `phi = np.radians(coords[:, 1])`,
then `m[:, 0] = R * np.radians(lambda_)` and
`m[:, 1] = R * np.log(np.tan(np.pi / 4 * phi / 2))`, leaving the remaining
components unchanged. -/
noncomputable def MercatorTransform.map (p : ℝ × ℝ × ℝ) : ℝ × ℝ × ℝ :=
  (R * radians (radians p.1),
   R * Real.log (Real.tan (Real.pi / 4 * radians p.2.1 / 2)),
   p.2.2)

/-- Embedding of `MercatorTransform.imap` (`transforms.py`, lines 141-152).
The source computes `lambda_ = x / R`,
`phi = 2 * np.atan(np.exp(y / R) - np.pi / 2)`, then converts both to
degrees, leaving the remaining components unchanged. -/
noncomputable def MercatorTransform.imap (p : ℝ × ℝ × ℝ) : ℝ × ℝ × ℝ :=
  (degrees (p.1 / R),
   degrees (2 * Real.arctan (Real.exp (p.2.1 / R) - Real.pi / 2)),
   p.2.2)

/-- The forward map the specification (and the comment block at the top of
`transforms.py`, with its GLSL shaders) describes:
`x = R·radians(lon)`, `y = R·ln(tan(π/4 + radians(lat)/2))`, `z` unchanged. -/
noncomputable def specMercatorForward (p : ℝ × ℝ × ℝ) : ℝ × ℝ × ℝ :=
  (R * radians p.1,
   R * Real.log (Real.tan (Real.pi / 4 + radians p.2.1 / 2)),
   p.2.2)

/-! ## tile_providers.py -/

/-- Embedding of an HTTP response as seen by `TileProvider.get_tile`: a
status code and a content payload (of abstract type `β`). -/
structure Response (β : Type) where
  status_code : ℤ
  content : β

/-- Data carried by a `TileNotFoundError` raised by
`TileProvider.get_tile`: the zoom, x and y interpolated into its message. -/
structure TileNotFoundData where
  z : ℕ
  x : ℤ
  y : ℤ
deriving DecidableEq

/-- Embedding of `Mapnik.url` (`tile_providers.py`): the OpenStreetMap tile
URL for a given zoom, x, y. -/
def Mapnik.url (z : ℕ) (x y : ℤ) : String :=
  "http://a.tile.openstreetmap.org/" ++ toString z ++ "/" ++ toString x
    ++ "/" ++ toString y ++ ".png"

/-- The URL `TileProvider.get_tile` fetches: the provider's `url` applied
after the reassignment `x = x % (2 ** z)`.  Python's `%` with a positive
modulus agrees with `Int.emod`. -/
def TileProvider.fetch_url (url : ℕ → ℤ → ℤ → String) (z : ℕ) (x y : ℤ) : String :=
  url z (x % (2 ^ z : ℤ)) y

/-- Embedding of `TileProvider.get_tile` (`tile_providers.py`, lines 52-68).
The session (`_session.get`) and the image decoder (`PIL.Image.open` plus
`convert` to RGBA) are external collaborators, passed in as functions.
The source reassigns `x = x % (2 ** z)`, fetches `url(z, x, y)`, raises
`TileNotFoundError` (with z, x, y in its message) when the status code is
not 200, and otherwise decodes the content to RGBA and flips it vertically
(`np.flip(rgba, 0)` reverses the row list). -/
def TileProvider.get_tile {β γ : Type} (url : ℕ → ℤ → ℤ → String)
    (session_get : String → Response β) (decodeRGBA : β → List (List γ))
    (z : ℕ) (x y : ℤ) : Except TileNotFoundData (List (List γ)) :=
  let x' := x % (2 ^ z : ℤ)
  let resp := session_get (url z x' y)
  if resp.status_code ≠ 200 then
    Except.error ⟨z, x', y⟩
  else
    Except.ok (decodeRGBA resp.content).reverse

/-! ## view.py: tile policies, the command queue and the worker loop -/

/-- Embedding of the `OnMissing` enum from `view.py`. -/
inductive OnMissing where
  | RAISE
  | IGNORE
  | REPLACE_WITH_CAT
deriving DecidableEq

/-- Modelled from the spec: the fixed fallback raster is loaded by
`MapView._get_cat` from the bundled 256x256 PNG `cat-killer-256x256.png`,
whose binary contents are not part of the Python sources; it is modelled
as a fixed 256-by-256 raster. -/
def catRaster : List (List ℕ) := List.replicate 256 (List.replicate 256 0)

/-- Embedding of `MapView.get_tile` (`view.py`, lines 346-365).  The
provider call `self.tile_provider.get_tile(z, x, y)` is abstracted as its
result (`tile_provider`), and the `_get_cat()` raster as `cat`.  A raised
`TileNotFoundError` is re-raised under `RAISE`, swallowed (returning
`None`) under `IGNORE`, and replaced by the cat raster under
`REPLACE_WITH_CAT`. -/
def MapView.get_tile {γ : Type} (tile_provider : Except TileNotFoundData (List (List γ)))
    (cat : List (List γ)) (missing : OnMissing) :
    Except TileNotFoundData (Option (List (List γ))) :=
  match tile_provider with
  | Except.ok rgb => Except.ok (some rgb)
  | Except.error e =>
      match missing with
      | OnMissing.RAISE => Except.error e
      | OnMissing.IGNORE => Except.ok none
      | OnMissing.REPLACE_WITH_CAT => Except.ok (some cat)

/-- Embedding of the dictionaries put on `MapView.queue`: a `cmd` string, a
method `name`, and the argument payload (of abstract type `A`). -/
structure CmdData (A : Type) where
  cmd : String
  name : String
  args : A
deriving DecidableEq

/-- Outcome of executing one queued method call: `none` when it returned
normally, `some e` when it raised `e`. -/
def errOf {E : Type} : Except E Unit → Option E
  | Except.ok _ => none
  | Except.error e => some e

/-- The commands sitting in the queue ahead of the first `None` sentinel. -/
def queued_before_stop {A : Type} (cmds : List (Option A)) : List A :=
  (cmds.takeWhile Option.isSome).filterMap id

/-- Embedding of `MapView.tile_controller` (`view.py`, lines 119-136) run
over a queue drained to a list.  A `None` entry breaks the loop; a
`call_method` entry runs the named method (abstracted as `run`); any
exception is caught and logged with the failing payload, and the loop
continues.  The result is the processing trace: each processed payload
paired with the exception logged for it, if any. -/
def MapView.tile_controller {A E : Type} (run : CmdData A → Except E Unit) :
    List (Option (CmdData A)) → List (CmdData A × Option E)
  | [] => []
  | none :: _ => []
  | some d :: rest =>
      (d, if d.cmd = "call_method" then errOf (run d) else none)
        :: MapView.tile_controller run rest

/-- Embedding of a `mercantile.Tile` (an x, y, zoom triple). -/
structure Tile where
  x : ℤ
  y : ℤ
  z : ℕ
deriving DecidableEq

/-- Embedding of the mouse event data inspected by
`TileCamera.viewbox_mouse_event`: the event type, the pressed buttons, and
the keyboard modifiers. -/
structure MouseEvent where
  type : String
  buttons : List ℕ
  modifiers : List String
deriving DecidableEq

/-- The `needs_update` flag computed by `TileCamera.viewbox_mouse_event`
(`view.py`, lines 489-499): true for a wheel event, or for a mouse move
with button 1 or 2 held and no keyboard modifiers. -/
def needs_update (event : MouseEvent) : Bool :=
  if event.type = "mouse_wheel" then true
  else if event.type = "mouse_move" then
    if 1 ∈ event.buttons ∧ event.modifiers = [] then true
    else if 2 ∈ event.buttons ∧ event.modifiers = [] then true
    else false
  else false

/-- Embedding of `MapView.add_tiles_for_current_zoom` (`view.py`, lines
303-312): unconditionally enqueue a composite command carrying the current
zoom and bounds. -/
def MapView.add_tiles_for_current_zoom (queue : List (CmdData (ℕ × Tile × Tile)))
    (tile_zoom_level : ℕ) (current_bounds : Tile × Tile) :
    List (CmdData (ℕ × Tile × Tile)) :=
  queue ++ [⟨"call_method", "_add_tiles_for_zoom", (tile_zoom_level, current_bounds)⟩]

/-- Embedding of the queue effect of `TileCamera.viewbox_mouse_event`
(`view.py`, lines 477-501).  The camera motion itself
(`super().viewbox_mouse_event`) does not touch the queue; the handler then
returns early when the map is disabled or the queue is non-empty, and
otherwise enqueues a composite when the event needs one. -/
def TileCamera.viewbox_mouse_event (map_enabled : Bool)
    (queue : List (CmdData (ℕ × Tile × Tile))) (event : MouseEvent)
    (tile_zoom_level : ℕ) (current_bounds : Tile × Tile) :
    List (CmdData (ℕ × Tile × Tile)) :=
  if map_enabled = false then queue
  else if queue ≠ [] then queue
  else if needs_update event then
    MapView.add_tiles_for_current_zoom queue tile_zoom_level current_bounds
  else queue

/-! ## view.py: merging tiles into one raster -/

/-- Pixel lookup in a list-of-rows raster: row `r`, column `c`. -/
def pix {γ : Type} (img : List (List γ)) (r c : ℕ) : Option γ :=
  (img[r]?).bind (fun row => row[c]?)

/-- Embedding of `np.concatenate(mats)` (axis 0) for a list of matrices:
stack the row lists. -/
def concat0 {γ : Type} (mats : List (List (List γ))) : List (List γ) :=
  mats.flatten

/-- Embedding of `np.concatenate(mats, 1)` for matrices of equal height:
row `i` of the result concatenates row `i` of every input matrix. -/
def concat1 {γ : Type} (mats : List (List (List γ))) : List (List γ) :=
  match mats with
  | [] => []
  | m :: _ =>
      (List.range m.length).map (fun i => (mats.map (fun n => n.getD i [])).flatten)

/-- Embedding of Python `range(a, b)` over `ℤ`. -/
def pyRange (a b : ℤ) : List ℤ :=
  (List.range (b - a).toNat).map (fun i : ℕ => a + (i : ℤ))

/-- Embedding of Python `range(a, b, -1)` over `ℤ`. -/
def pyRangeDown (a b : ℤ) : List ℤ :=
  (List.range (a - b).toNat).map (fun i : ℕ => a - (i : ℤ))

/-- Embedding of `MapView._merge_tiles` (`view.py`, lines 324-344).  The
source requests tile `(z, x, y)` for `x in range(x0, x1+1)` and
`y in range(y1, y0-1, -1)` (the thread pool's `starmap` preserves request
order), concatenates each column's tiles along axis 0, and concatenates
the columns along axis 1.  The tile fetch (`self.get_tile` with the
`REPLACE_WITH_CAT` policy, which always returns a raster) is abstracted as
the function `get_tile`. -/
def MapView.merge_tiles {γ : Type} (get_tile : ℤ → ℤ → ℤ → List (List γ))
    (z x0 y0 x1 y1 : ℤ) : List (List γ) :=
  concat1 ((pyRange x0 (x1 + 1)).map
    (fun x => concat0 ((pyRangeDown y1 (y0 - 1)).map (fun y => get_tile z x y))))

/-! ## view.py: the image dictionary and stale-zoom eviction -/

/-- Embedding of the keys of `MapView._images` as used by
`_add_tiles_for_zoom`: the tuple `(z, x0, x1, y0, y1)`. -/
structure ImageKey where
  z : ℕ
  x0 : ℤ
  x1 : ℤ
  y0 : ℤ
  y1 : ℤ
deriving DecidableEq

/-- Embedding of the image-related state of a `MapView`: the insertion
ordered dictionary `_images` (image visuals abstracted as numeric ids) and
the list of image ids attached to the scene graph. -/
structure MapViewImages where
  images : List (ImageKey × ℕ)
  scene : List ℕ
deriving DecidableEq

/-- Embedding of `dict.pop(key)` on an insertion-ordered association list:
returns the popped value (if the key is present) and the remaining list.
Callers in `view.py` only pop keys that are present. -/
def dict_pop {β : Type} (key : ImageKey) :
    List (ImageKey × β) → Option β × List (ImageKey × β)
  | [] => (none, [])
  | p :: rest =>
      if p.1 = key then (some p.2, rest)
      else ((dict_pop key rest).1, p :: (dict_pop key rest).2)

/-- Embedding of `MapView.remove_tile` (`view.py`, lines 294-301): pop the
key from `_images` and detach the popped image from the scene
(`im.parent = None`, modelled as erasing its id from the scene list). -/
def MapView.remove_tile (st : MapViewImages) (key : ImageKey) : MapViewImages :=
  { images := (dict_pop key st.images).2
    scene := match (dict_pop key st.images).1 with
             | some im => st.scene.erase im
             | none => st.scene }

/-- Embedding of the eviction sweep at the end of `_add_tiles_for_zoom`
(`view.py`, lines 289-292): iterate over a snapshot of the keys and remove
every entry whose zoom differs from the current zoom. -/
def sweep_stale (zoom : ℕ) (keys : List ImageKey) (st : MapViewImages) : MapViewImages :=
  keys.foldl (fun s k => if k.z ≠ zoom then MapView.remove_tile s k else s) st

/-- Embedding of the conditional insert in `_add_tiles_for_zoom` (`view.py`,
lines 284-287): if the key is not yet in `_images`, merge the tiles, add
the resulting image to the scene (`_add_rgb_as_image`) and store it under
the key.  The fresh image visual is abstracted as the id `new_image`. -/
def MapView.merge_and_store (st : MapViewImages) (key : ImageKey) (new_image : ℕ) :
    MapViewImages :=
  if key ∈ st.images.map Prod.fst then st
  else { images := st.images ++ [(key, new_image)], scene := st.scene ++ [new_image] }

/-- Embedding of `MapView._add_tiles_for_zoom` (`view.py`, lines 260-292):
compute the padded, clamped tile bounds, store the merged image under its
key if absent, then sweep every entry whose zoom differs from
`zoom_level`. -/
def MapView.add_tiles_for_zoom (st : MapViewImages) (zoom_level : ℕ)
    (northwest southeast : Tile) (extra : ℤ) (new_image : ℕ) : MapViewImages :=
  let x0 := northwest.x - extra
  let x1 := southeast.x + extra
  let y0 := if northwest.y - extra < 0 then 0 else northwest.y - extra
  let y1 := if southeast.y + extra > 2 ^ zoom_level - 1 then (2 ^ zoom_level - 1 : ℤ)
            else southeast.y + extra
  let st1 := MapView.merge_and_store st ⟨zoom_level, x0, x1, y0, y1⟩ new_image
  sweep_stale zoom_level (st1.images.map Prod.fst) st1

/-- The in-sync invariant of a `MapView`'s image state: keys are unique
(`_images` is a dict), image ids are unique, and the scene holds exactly
the stored images (the sync that `scene_images`'s docstring asserts). -/
def ImagesInv (st : MapViewImages) : Prop :=
  (st.images.map Prod.fst).Nodup ∧ (st.images.map Prod.snd).Nodup
    ∧ st.scene = st.images.map Prod.snd

end Vismap

namespace Vismap

/-- Length of a flattened list of lists that all have length `ts`. -/
theorem flatten_length_of_uniform {γ : Type} {ts : ℕ} :
    ∀ (L : List (List γ)), (∀ l ∈ L, l.length = ts) →
      L.flatten.length = ts * L.length
  | [], _ => by simp
  | l :: L, h => by
      simp only [List.flatten_cons, List.length_append, List.length_cons]
      rw [h l (List.mem_cons_self l L),
        flatten_length_of_uniform L (fun x hx => h x (List.mem_cons_of_mem l hx))]
      ring

/-- Indexing a flattened list of lists that all have length `ts`: position
`ts*q + r` with `r < ts` lands in block `q` at offset `r`. -/
theorem flatten_getElem_of_uniform {γ : Type} {ts : ℕ}
    (L : List (List γ)) (h : ∀ l ∈ L, l.length = ts) (q r : ℕ) (hr : r < ts) :
    L.flatten[ts * q + r]? = L[q]?.bind (fun l => l[r]?) := by
  induction L generalizing q with
  | nil => simp
  | cons l L ih =>
    have hl : l.length = ts := h l (List.mem_cons_self l L)
    have hL : ∀ x ∈ L, x.length = ts := fun x hx => h x (List.mem_cons_of_mem l hx)
    cases q with
    | zero =>
        simp only [Nat.mul_zero, Nat.zero_add, List.flatten_cons,
          List.getElem?_cons_zero, Option.bind_some]
        exact List.getElem?_append_left (by omega)
    | succ q =>
        simp only [List.flatten_cons, List.getElem?_cons_succ]
        have hle : l.length ≤ ts * (q + 1) + r := by rw [Nat.mul_succ]; omega
        rw [List.getElem?_append_right hle,
          show ts * (q + 1) + r - l.length = ts * q + r by rw [Nat.mul_succ]; omega]
        exact ih hL q

/-- Length of the embedded Python `range(a, b)`. -/
theorem pyRange_length (a b : ℤ) : (pyRange a b).length = (b - a).toNat := by
  simp only [pyRange, List.length_map, List.length_range]

/-- Element `i` of the embedded Python `range(a, b)` is `a + i`. -/
theorem pyRange_getElem (a b : ℤ) (i : ℕ) (hi : i < (b - a).toNat) :
    (pyRange a b)[i]? = some (a + i) := by
  simp only [pyRange, List.getElem?_map, List.getElem?_range hi]
  rfl

/-- Length of the embedded Python `range(a, b, -1)`. -/
theorem pyRangeDown_length (a b : ℤ) : (pyRangeDown a b).length = (a - b).toNat := by
  simp only [pyRangeDown, List.length_map, List.length_range]

/-- Element `i` of the embedded Python `range(a, b, -1)` is `a - i`. -/
theorem pyRangeDown_getElem (a b : ℤ) (i : ℕ) (hi : i < (a - b).toNat) :
    (pyRangeDown a b)[i]? = some (a - i) := by
  simp only [pyRangeDown, List.getElem?_map, List.getElem?_range hi]
  rfl

/-- Unfolding of `concat1` on a non-empty list of matrices of equal height. -/
theorem concat1_eq {γ : Type} (mats : List (List (List γ))) (H : ℕ)
    (hne : mats ≠ []) (hH : ∀ m ∈ mats, m.length = H) :
    concat1 mats
      = (List.range H).map (fun i => (mats.map (fun n => n.getD i [])).flatten) := by
  cases mats with
  | nil => exact absurd rfl hne
  | cons m rest =>
      simp only [concat1]
      rw [hH m (List.mem_cons_self m rest)]

/-- C3: `_merge_tiles` over a tile range `x0..x1`, `y0..y1` (every tile a
`ts × ts` raster) assembles the raster column-major: its height is
`ts·(y1−y0+1)` and every row has length `ts·(x1−x0+1)`, and the `ts × ts`
block at block-column `qx` (left to right) and block-row `qy` (top to
bottom) is the tile at `x = x0 + qx` (x ascending) and `y = y1 − qy`
(y descending from `y1`), preserving the relative arrangement of the tile
indices. -/
theorem C3_merge_tiles_layout {γ : Type} (get_tile : ℤ → ℤ → ℤ → List (List γ))
    (z x0 y0 x1 y1 : ℤ) (ts : ℕ)
    (hdim : ∀ x y, (get_tile z x y).length = ts)
    (hrow : ∀ x y, ∀ row ∈ get_tile z x y, row.length = ts)
    (hx : x0 ≤ x1) (hy : y0 ≤ y1) :
    (MapView.merge_tiles get_tile z x0 y0 x1 y1).length = ts * (y1 - y0 + 1).toNat
    ∧ (∀ row ∈ MapView.merge_tiles get_tile z x0 y0 x1 y1,
        row.length = ts * (x1 - x0 + 1).toNat)
    ∧ (∀ qx qy r c : ℕ, qx < (x1 - x0 + 1).toNat → qy < (y1 - y0 + 1).toNat →
        r < ts → c < ts →
        pix (MapView.merge_tiles get_tile z x0 y0 x1 y1)
            (ts * qy + r) (ts * qx + c)
          = pix (get_tile z (x0 + (qx : ℤ)) (y1 - (qy : ℤ))) r c) := by
  set mats := (pyRange x0 (x1 + 1)).map
    (fun x => concat0 ((pyRangeDown y1 (y0 - 1)).map (fun y => get_tile z x y)))
    with hmatsdef
  have hxs_len : (pyRange x0 (x1 + 1)).length = (x1 - x0 + 1).toNat := by
    rw [pyRange_length]
    congr 1
    ring
  have hys_len : (pyRangeDown y1 (y0 - 1)).length = (y1 - y0 + 1).toNat := by
    rw [pyRangeDown_length]
    congr 1
    ring
  have hcol_uniform : ∀ x : ℤ, ∀ l ∈ (pyRangeDown y1 (y0 - 1)).map
      (fun y => get_tile z x y), l.length = ts := by
    intro x l hl
    rcases List.mem_map.mp hl with ⟨y, _, rfl⟩
    exact hdim x y
  have hmats_len : ∀ m ∈ mats, m.length = ts * (y1 - y0 + 1).toNat := by
    intro m hm
    rcases List.mem_map.mp hm with ⟨x, _, rfl⟩
    rw [concat0, flatten_length_of_uniform _ (hcol_uniform x), List.length_map,
      hys_len]
  have hmats_rows : ∀ m ∈ mats, ∀ row ∈ m, row.length = ts := by
    intro m hm row hr
    rcases List.mem_map.mp hm with ⟨x, _, rfl⟩
    rw [concat0] at hr
    rcases List.mem_flatten.mp hr with ⟨l, hl, hrl⟩
    rcases List.mem_map.mp hl with ⟨y, _, rfl⟩
    exact hrow x y row hrl
  have hmats_ne : mats ≠ [] := by
    apply List.length_pos.mp
    rw [hmatsdef, List.length_map, hxs_len]
    omega
  have hmerge : MapView.merge_tiles get_tile z x0 y0 x1 y1
      = (List.range (ts * (y1 - y0 + 1).toNat)).map
          (fun i => (mats.map (fun n => n.getD i [])).flatten) := by
    simp only [MapView.merge_tiles]
    exact concat1_eq _ _ hmats_ne hmats_len
  have hflat_uniform : ∀ i : ℕ, i < ts * (y1 - y0 + 1).toNat →
      ∀ l ∈ mats.map (fun n => n.getD i []), l.length = ts := by
    intro i hi l hl
    rcases List.mem_map.mp hl with ⟨m, hm, rfl⟩
    have hilt : i < m.length := by rw [hmats_len m hm]; exact hi
    rw [List.getD_eq_getElem?_getD, List.getElem?_eq_getElem hilt, Option.getD_some]
    exact hmats_rows m hm _ (List.getElem_mem hilt)
  refine ⟨?_, ?_, ?_⟩
  · rw [hmerge, List.length_map, List.length_range]
  · intro row hrowm
    rw [hmerge] at hrowm
    rcases List.mem_map.mp hrowm with ⟨i, hi, rfl⟩
    have hi' : i < ts * (y1 - y0 + 1).toNat := List.mem_range.mp hi
    rw [flatten_length_of_uniform _ (hflat_uniform i hi'), List.length_map,
      hmatsdef, List.length_map, hxs_len]
  · intro qx qy r c hqx hqy hr hc
    have hR : ts * qy + r < ts * (y1 - y0 + 1).toNat := by
      have h1 : ts * qy + r < ts * qy + ts := by omega
      have h2 : ts * qy + ts ≤ ts * (y1 - y0 + 1).toNat := by
        rw [← Nat.mul_succ]
        exact Nat.mul_le_mul (Nat.le_refl ts) hqy
      omega
    have hqx' : qx < (x1 + 1 - x0).toNat := by omega
    have hqy' : qy < (y1 - (y0 - 1)).toNat := by omega
    have hmergeRow : (MapView.merge_tiles get_tile z x0 y0 x1 y1)[ts * qy + r]?
        = some ((mats.map (fun n => n.getD (ts * qy + r) [])).flatten) := by
      rw [hmerge, List.getElem?_map, List.getElem?_range hR, Option.map_some']
    rw [pix, hmergeRow, Option.some_bind,
      flatten_getElem_of_uniform _ (hflat_uniform _ hR) qx c hc, hmatsdef,
      List.getElem?_map, List.getElem?_map, pyRange_getElem x0 (x1 + 1) qx hqx',
      Option.map_some', Option.map_some', Option.some_bind]
    have hrlt : r < (get_tile z (x0 + (qx : ℤ)) (y1 - (qy : ℤ))).length := by
      rw [hdim]
      exact hr
    have hcolR : (concat0 ((pyRangeDown y1 (y0 - 1)).map
        (fun y => get_tile z (x0 + (qx : ℤ)) y)))[ts * qy + r]?
        = (get_tile z (x0 + (qx : ℤ)) (y1 - (qy : ℤ)))[r]? := by
      rw [concat0, flatten_getElem_of_uniform _ (hcol_uniform _) qy r hr,
        List.getElem?_map, pyRangeDown_getElem y1 (y0 - 1) qy hqy',
        Option.map_some', Option.some_bind]
    rw [List.getD_eq_getElem?_getD, hcolR, List.getElem?_eq_getElem hrlt,
      Option.getD_some, pix, List.getElem?_eq_getElem hrlt, Option.some_bind]

/-- Witness for C3 with four distinct 1-by-1 tiles at zoom 7 over
`x ∈ [0, 1]`, `y ∈ [2, 3]`: the bottom-left pixel (block-row 1, column 0)
is the tile at `x = 0`, `y = 3 - 1 = 2`. -/
theorem C3_merge_tiles_layout_witness :
    pix (MapView.merge_tiles (fun _ x y => [[(x, y)]]) 7 0 2 1 3) 1 0
      = some ((0 : ℤ), (2 : ℤ)) := by
  have h := (C3_merge_tiles_layout (fun _ x y => [[(x, y)]]) 7 0 2 1 3 1
    (fun _ _ => rfl)
    (fun _ _ row hrow => by
      rw [List.mem_singleton] at hrow
      rw [hrow]
      rfl)
    (by decide) (by decide)).2.2 0 1 0 0 (by decide) (by decide) (by decide) (by decide)
  simpa [pix] using h

/-- Popping a key yields a sublist of the original association list. -/
theorem dict_pop_sublist {β : Type} (key : ImageKey) (l : List (ImageKey × β)) :
    ((dict_pop key l).2).Sublist l := by
  induction l with
  | nil => simp [dict_pop]
  | cons p rest ih =>
      by_cases h : p.1 = key
      · simp only [dict_pop, if_pos h]
        exact List.sublist_cons_self p rest
      · simp only [dict_pop, if_neg h]
        exact ih.cons₂ p

/-- A value popped from an association list was one of its values. -/
theorem dict_pop_mem_of_some {β : Type} (key : ImageKey) (l : List (ImageKey × β))
    (v : β) (h : (dict_pop key l).1 = some v) : v ∈ l.map Prod.snd := by
  induction l with
  | nil => simp [dict_pop] at h
  | cons p rest ih =>
      by_cases hp : p.1 = key
      · simp only [dict_pop, if_pos hp, Option.some.injEq] at h
        subst h
        simp
      · simp only [dict_pop, if_neg hp] at h
        simp [ih h]

/-- With distinct values, the values remaining after a pop are the original
values with the popped one erased. -/
theorem dict_pop_snd_map (key : ImageKey)
    (l : List (ImageKey × ℕ)) (hnd : (l.map Prod.snd).Nodup) :
    (dict_pop key l).2.map Prod.snd
      = (match (dict_pop key l).1 with
         | some v => (l.map Prod.snd).erase v
         | none => l.map Prod.snd) := by
  induction l with
  | nil => simp [dict_pop]
  | cons p rest ih =>
      simp only [List.map_cons, List.nodup_cons] at hnd
      by_cases hp : p.1 = key
      · simp only [dict_pop, if_pos hp]
        exact (List.erase_cons_head p.2 (rest.map Prod.snd)).symm
      · cases hopt : (dict_pop key rest).1 with
        | none =>
            simp only [dict_pop, if_neg hp, hopt, List.map_cons]
            simp only [hopt] at ih
            rw [ih hnd.2]
        | some v =>
            simp only [dict_pop, if_neg hp, hopt, List.map_cons]
            simp only [hopt] at ih
            have hv : v ∈ rest.map Prod.snd := dict_pop_mem_of_some key rest v hopt
            have hne : ¬(p.2 == v) = true := by
              simp only [beq_iff_eq]
              exact fun he => hnd.1 (he ▸ hv)
            rw [ih hnd.2, List.erase_cons_tail hne]

/-- With distinct keys, no entry left after a pop carries the popped key. -/
theorem dict_pop_fst_ne {β : Type} (key : ImageKey) (l : List (ImageKey × β))
    (hnd : (l.map Prod.fst).Nodup) :
    ∀ p ∈ (dict_pop key l).2, p.1 ≠ key := by
  induction l with
  | nil => simp [dict_pop]
  | cons q rest ih =>
      simp only [List.map_cons, List.nodup_cons] at hnd
      by_cases hq : q.1 = key
      · simp only [dict_pop, if_pos hq]
        intro p hp hpk
        exact hnd.1 (by rw [hq, ← hpk]; exact List.mem_map_of_mem Prod.fst hp)
      · simp only [dict_pop, if_neg hq]
        intro p hp
        rcases List.mem_cons.mp hp with rfl | hp'
        · exact hq
        · exact ih hnd.2 p hp'

/-- Removing a tile preserves the in-sync invariant, shrinks the dictionary
to a sublist, and leaves no entry under the removed key. -/
theorem remove_tile_inv (st : MapViewImages) (key : ImageKey) (h : ImagesInv st) :
    ImagesInv (MapView.remove_tile st key)
    ∧ (MapView.remove_tile st key).images.Sublist st.images
    ∧ ∀ p ∈ (MapView.remove_tile st key).images, p.1 ≠ key := by
  obtain ⟨h1, h2, h3⟩ := h
  have hsub : ((dict_pop key st.images).2).Sublist st.images := dict_pop_sublist key st.images
  refine ⟨⟨(hsub.map Prod.fst).nodup h1, (hsub.map Prod.snd).nodup h2, ?_⟩,
    hsub, dict_pop_fst_ne key st.images h1⟩
  simp only [MapView.remove_tile]
  rw [dict_pop_snd_map key st.images h2, h3]

/-- The eviction sweep preserves the invariant, shrinks the dictionary, and
removes every swept key whose zoom differs from the current zoom. -/
theorem sweep_stale_spec (zoom : ℕ) (keys : List ImageKey) :
    ∀ st : MapViewImages, ImagesInv st →
      ImagesInv (sweep_stale zoom keys st)
      ∧ (sweep_stale zoom keys st).images.Sublist st.images
      ∧ (∀ p ∈ (sweep_stale zoom keys st).images, p.1 ∈ keys → p.1.z = zoom) := by
  induction keys with
  | nil =>
      intro st h
      exact ⟨h, List.Sublist.refl _, fun p _ hp => absurd hp (List.not_mem_nil _)⟩
  | cons k ks ih =>
      intro st h
      have hstep : sweep_stale zoom (k :: ks) st
          = sweep_stale zoom ks (if k.z ≠ zoom then MapView.remove_tile st k else st) := rfl
      by_cases hz : k.z = zoom
      · rw [hstep, if_neg (not_not_intro hz)]
        obtain ⟨hinv, hsub, hmem⟩ := ih st h
        refine ⟨hinv, hsub, fun p hp hpk => ?_⟩
        rcases List.mem_cons.mp hpk with he | hin
        · rw [he]
          exact hz
        · exact hmem p hp hin
      · rw [hstep, if_pos hz]
        obtain ⟨hrinv, hrsub, hrne⟩ := remove_tile_inv st k h
        obtain ⟨hinv, hsub, hmem⟩ := ih _ hrinv
        refine ⟨hinv, hsub.trans hrsub, fun p hp hpk => ?_⟩
        rcases List.mem_cons.mp hpk with he | hin
        · exact absurd he (hrne p (hsub.subset hp))
        · exact hmem p hp hin

/-- The conditional insert preserves the invariant when the new image id is
fresh, extends the dictionary, and adds at most the new entry. -/
theorem merge_and_store_inv (st : MapViewImages) (key : ImageKey) (new_image : ℕ)
    (h : ImagesInv st) (hfresh : new_image ∉ st.images.map Prod.snd) :
    ImagesInv (MapView.merge_and_store st key new_image)
    ∧ st.images.Sublist (MapView.merge_and_store st key new_image).images
    ∧ ∀ p ∈ (MapView.merge_and_store st key new_image).images,
        p ∈ st.images ∨ p = (key, new_image) := by
  obtain ⟨h1, h2, h3⟩ := h
  by_cases hmem : key ∈ st.images.map Prod.fst
  · simp only [MapView.merge_and_store, if_pos hmem]
    exact ⟨⟨h1, h2, h3⟩, List.Sublist.refl _, fun p hp => Or.inl hp⟩
  · simp only [MapView.merge_and_store, if_neg hmem]
    refine ⟨⟨?_, ?_, ?_⟩, List.sublist_append_left _ _, ?_⟩
    · rw [List.map_append]
      exact List.Nodup.append h1 (List.nodup_singleton key)
        (List.disjoint_singleton.mpr hmem)
    · rw [List.map_append]
      exact List.Nodup.append h2 (List.nodup_singleton new_image)
        (List.disjoint_singleton.mpr hfresh)
    · simp [List.map_append, h3]
    · intro p hp
      rcases List.mem_append.mp hp with hl | hr
      · exact Or.inl hl
      · exact Or.inr (List.mem_singleton.mp hr)

/-- C8: after `_add_tiles_for_zoom` completes at zoom `z`, every entry of
the image mapping has zoom `z`; the mapping stays in sync with the scene;
and every prior entry with a different zoom has its image detached from
the scene. -/
theorem C8_stale_zoom_eviction (st : MapViewImages) (zoom_level : ℕ)
    (northwest southeast : Tile) (extra : ℤ) (new_image : ℕ)
    (hinv : ImagesInv st) (hfresh : new_image ∉ st.images.map Prod.snd) :
    (∀ p ∈ (MapView.add_tiles_for_zoom st zoom_level northwest southeast
        extra new_image).images, p.1.z = zoom_level)
    ∧ ImagesInv (MapView.add_tiles_for_zoom st zoom_level northwest southeast
        extra new_image)
    ∧ ∀ p ∈ st.images, p.1.z ≠ zoom_level →
        p.2 ∉ (MapView.add_tiles_for_zoom st zoom_level northwest southeast
          extra new_image).scene := by
  obtain ⟨key, hkeyeq⟩ : ∃ key : ImageKey,
      MapView.add_tiles_for_zoom st zoom_level northwest southeast extra new_image
        = sweep_stale zoom_level
            ((MapView.merge_and_store st key new_image).images.map Prod.fst)
            (MapView.merge_and_store st key new_image) := ⟨_, rfl⟩
  rw [hkeyeq]
  obtain ⟨hinv1, hsub1, hmem1⟩ := merge_and_store_inv st key new_image hinv hfresh
  obtain ⟨hinv2, hsub2, hz2⟩ := sweep_stale_spec zoom_level _ _ hinv1
  refine ⟨?_, hinv2, ?_⟩
  · intro p hp
    exact hz2 p hp (List.mem_map_of_mem Prod.fst (hsub2.subset hp))
  · intro p hpst hpz hpscene
    obtain ⟨_, hval1, _⟩ := hinv1
    obtain ⟨_, _, hscene2⟩ := hinv2
    rw [hscene2] at hpscene
    rcases List.mem_map.mp hpscene with ⟨q, hq, hq2⟩
    have hq1 : q ∈ (MapView.merge_and_store st key new_image).images := hsub2.subset hq
    have hqz : q.1.z = zoom_level := hz2 q hq (List.mem_map_of_mem Prod.fst hq1)
    rcases hmem1 q hq1 with hqst | hqnew
    · have hpq : p ∈ (MapView.merge_and_store st key new_image).images :=
        hsub1.subset hpst
      have : q = p := List.inj_on_of_nodup_map hval1 hq1 hpq hq2
      exact hpz (this ▸ hqz)
    · apply hfresh
      have : new_image = p.2 := by rw [← hq2, hqnew]
      rw [this]
      exact List.mem_map_of_mem Prod.snd hpst

/-- Witness for C8: a state holding one stale zoom-5 entry, composited at
zoom 3; the stale entry is evicted and its image leaves the scene. -/
theorem C8_stale_zoom_eviction_witness :
    (∀ p ∈ (MapView.add_tiles_for_zoom ⟨[(⟨5, 0, 0, 0, 0⟩, 10)], [10]⟩ 3
        ⟨0, 0, 3⟩ ⟨0, 0, 3⟩ 1 11).images, p.1.z = 3)
    ∧ ImagesInv (MapView.add_tiles_for_zoom ⟨[(⟨5, 0, 0, 0, 0⟩, 10)], [10]⟩ 3
        ⟨0, 0, 3⟩ ⟨0, 0, 3⟩ 1 11)
    ∧ ∀ p ∈ (⟨[(⟨5, 0, 0, 0, 0⟩, 10)], [10]⟩ : MapViewImages).images,
        p.1.z ≠ 3 →
        p.2 ∉ (MapView.add_tiles_for_zoom ⟨[(⟨5, 0, 0, 0, 0⟩, 10)], [10]⟩ 3
          ⟨0, 0, 3⟩ ⟨0, 0, 3⟩ 1 11).scene :=
  C8_stale_zoom_eviction ⟨[(⟨5, 0, 0, 0, 0⟩, 10)], [10]⟩ 3 ⟨0, 0, 3⟩ ⟨0, 0, 3⟩ 1 11
    ⟨by decide, by decide, by decide⟩ (by decide)

/-- C2: the CPU-side forward Mercator map is claimed to return
`x = R·radians(lon)`; the code instead computes `R·radians(radians(lon))`
(the `radians` conversion is applied twice), so at `lon = 180` the first
component differs from the claimed value. -/
theorem C2_map_x_component_diverges :
    (MercatorTransform.map (180, 0, 0)).1 ≠ (specMercatorForward (180, 0, 0)).1 := by
  have h1 : Real.pi < 3.15 := Real.pi_lt_d2
  have h2 : 3 < Real.pi := Real.pi_gt_three
  simp only [MercatorTransform.map, specMercatorForward, radians, R]
  intro h
  nlinarith [h, h1, h2]

/-- C1: the spec claims the forward-then-inverse Mercator round trip
reproduces the input within `1e-6` degrees; at `(lon, lat) = (90, 45)` the
longitude component of `imap (map (90, 45, 0))` equals `π/2 ≈ 1.5708`
degrees, more than `1e-6` away from `90`. -/
theorem C1_roundtrip_fails :
    1e-6 < |(MercatorTransform.imap (MercatorTransform.map (90, 45, 0))).1 - 90| := by
  have h1 : Real.pi < 3.15 := Real.pi_lt_d2
  have h2 : 3 < Real.pi := Real.pi_gt_three
  have hpi : Real.pi ≠ 0 := ne_of_gt (by linarith)
  have hval : (MercatorTransform.imap (MercatorTransform.map (90, 45, 0))).1 = Real.pi / 2 := by
    simp only [MercatorTransform.imap, MercatorTransform.map, radians, degrees, R]
    field_simp
    ring
  rw [hval]
  have hlt : Real.pi / 2 - 90 < 0 := by linarith
  rw [abs_of_neg hlt]
  norm_num
  linarith

/-- C5: `TileProvider.get_tile` reduces `x` modulo `2^z` before building
the fetch URL: its result only depends on `x % 2^z`, the fetched URL is
`url z (x % 2^z) y` with `x % 2^z ∈ [0, 2^z)`, and in particular the URL
built for `zoom=3, x=9, y=2` is the provider URL with `x = 1`. -/
theorem C5_x_wraparound {β γ : Type} (url : ℕ → ℤ → ℤ → String)
    (session_get : String → Response β) (decodeRGBA : β → List (List γ))
    (z : ℕ) (x y : ℤ) :
    TileProvider.get_tile url session_get decodeRGBA z x y
      = TileProvider.get_tile url session_get decodeRGBA z (x % (2 ^ z : ℤ)) y
    ∧ TileProvider.fetch_url url z x y = url z (x % (2 ^ z : ℤ)) y
    ∧ 0 ≤ x % (2 ^ z : ℤ) ∧ x % (2 ^ z : ℤ) < 2 ^ z
    ∧ TileProvider.fetch_url Mapnik.url 3 9 2 = Mapnik.url 3 1 2 := by
  have hpos : (0 : ℤ) < 2 ^ z := by positivity
  have hxx : (x % (2 ^ z : ℤ)) % (2 ^ z : ℤ) = x % (2 ^ z : ℤ) :=
    Int.emod_emod_of_dvd x (dvd_refl _)
  refine ⟨?_, rfl, Int.emod_nonneg x hpos.ne', Int.emod_lt_of_pos x hpos, rfl⟩
  simp only [TileProvider.get_tile, hxx]

/-- C6: `TileProvider.get_tile` fails with a `TileNotFoundError` carrying
the zoom, (wrapped) x and y exactly when the response status is not 200,
and on a 200 response returns the decoded RGBA raster with its rows
reversed (the vertical flip). -/
theorem C6_status_dichotomy {β γ : Type} (url : ℕ → ℤ → ℤ → String)
    (session_get : String → Response β) (decodeRGBA : β → List (List γ))
    (z : ℕ) (x y : ℤ) :
    ((session_get (TileProvider.fetch_url url z x y)).status_code ≠ 200 →
      TileProvider.get_tile url session_get decodeRGBA z x y
        = Except.error ⟨z, x % (2 ^ z : ℤ), y⟩)
    ∧ ((session_get (TileProvider.fetch_url url z x y)).status_code = 200 →
      TileProvider.get_tile url session_get decodeRGBA z x y
        = Except.ok (decodeRGBA
            (session_get (TileProvider.fetch_url url z x y)).content).reverse)
    ∧ (∀ e, TileProvider.get_tile url session_get decodeRGBA z x y = Except.error e
        ↔ ((session_get (TileProvider.fetch_url url z x y)).status_code ≠ 200
            ∧ e = ⟨z, x % (2 ^ z : ℤ), y⟩)) := by
  by_cases h : (session_get (TileProvider.fetch_url url z x y)).status_code = 200
  · refine ⟨fun hne => absurd h hne, fun _ => ?_, fun e => ?_⟩
    · simp only [TileProvider.get_tile, TileProvider.fetch_url] at h ⊢
      rw [if_neg (by simpa using h)]
    · constructor
      · intro herr
        simp only [TileProvider.get_tile, TileProvider.fetch_url] at h herr
        rw [if_neg (by simpa using h)] at herr
        exact absurd herr (by simp)
      · rintro ⟨hne, _⟩
        exact absurd h hne
  · refine ⟨fun _ => ?_, fun heq => absurd heq h, fun e => ?_⟩
    · simp only [TileProvider.get_tile, TileProvider.fetch_url] at h ⊢
      rw [if_pos (by simpa using h)]
    · constructor
      · intro herr
        simp only [TileProvider.get_tile, TileProvider.fetch_url] at h herr
        rw [if_pos (by simpa using h)] at herr
        refine ⟨h, ?_⟩
        exact (Except.error.inj herr).symm
      · rintro ⟨_, he⟩
        simp only [TileProvider.get_tile, TileProvider.fetch_url, he]
        rw [if_pos (by simpa using h)]

/-- Witness for C6 at a concrete session and decoder: a 404 response gives
the error carrying `(3, 9 mod 8, 2)`, and a 200 response gives the decoded,
vertically flipped raster. -/
theorem C6_status_dichotomy_witness :
    (TileProvider.get_tile Mapnik.url (fun _ => (⟨404, 5⟩ : Response ℕ))
        (fun n : ℕ => [[n]]) 3 9 2 = Except.error ⟨3, 9 % 2 ^ 3, 2⟩)
    ∧ (TileProvider.get_tile Mapnik.url (fun _ => (⟨200, 5⟩ : Response ℕ))
        (fun n : ℕ => [[n]]) 3 9 2 = Except.ok [[5]]) :=
  ⟨(C6_status_dichotomy Mapnik.url (fun _ => (⟨404, 5⟩ : Response ℕ))
      (fun n : ℕ => [[n]]) 3 9 2).1 (by decide),
   by simpa using (C6_status_dichotomy Mapnik.url (fun _ => (⟨200, 5⟩ : Response ℕ))
      (fun n : ℕ => [[n]]) 3 9 2).2.1 rfl⟩

/-- C4: when the command queue is non-empty, a camera-movement event does
not enqueue another composite command: the queue after
`TileCamera.viewbox_mouse_event` is the queue before it. -/
theorem C4_queue_coalescing (map_enabled : Bool)
    (queue : List (CmdData (ℕ × Tile × Tile))) (event : MouseEvent)
    (tile_zoom_level : ℕ) (current_bounds : Tile × Tile)
    (hne : queue ≠ []) :
    TileCamera.viewbox_mouse_event map_enabled queue event
      tile_zoom_level current_bounds = queue := by
  unfold TileCamera.viewbox_mouse_event
  by_cases h : map_enabled = false <;> simp [h, hne]

/-- Witness for C4: a wheel event on a queue that already holds one
composite leaves the queue unchanged. -/
theorem C4_queue_coalescing_witness :
    TileCamera.viewbox_mouse_event true
      [⟨"call_method", "_add_tiles_for_zoom", (0, ⟨0, 0, 0⟩, ⟨0, 0, 0⟩)⟩]
      ⟨"mouse_wheel", [], []⟩ 0 (⟨0, 0, 0⟩, ⟨0, 0, 0⟩)
      = [⟨"call_method", "_add_tiles_for_zoom", (0, ⟨0, 0, 0⟩, ⟨0, 0, 0⟩)⟩] :=
  C4_queue_coalescing true _ _ 0 _ (by simp)

/-- C7: when the provider fetch fails, `MapView.get_tile` with the
`REPLACE_WITH_CAT` policy does not raise and returns the fixed fallback
raster, which is exactly 256 by 256; with the `RAISE` policy the error
propagates. -/
theorem C7_missing_tile_fallback (e : TileNotFoundData) :
    MapView.get_tile (Except.error e) catRaster OnMissing.REPLACE_WITH_CAT
      = Except.ok (some catRaster)
    ∧ catRaster.length = 256
    ∧ (∀ row ∈ catRaster, row.length = 256)
    ∧ MapView.get_tile (Except.error e) catRaster OnMissing.RAISE
      = Except.error e := by
  refine ⟨rfl, by simp only [catRaster, List.length_replicate], ?_, rfl⟩
  intro row hrow
  rw [List.eq_of_mem_replicate hrow]
  simp only [List.length_replicate]

/-- Witness for C7 at the concrete error `⟨0, 0, 0⟩`. -/
theorem C7_missing_tile_fallback_witness :
    MapView.get_tile (Except.error ⟨0, 0, 0⟩) catRaster OnMissing.REPLACE_WITH_CAT
      = Except.ok (some catRaster)
    ∧ MapView.get_tile (Except.error ⟨0, 0, 0⟩) catRaster OnMissing.RAISE
      = Except.error ⟨0, 0, 0⟩ :=
  ⟨(C7_missing_tile_fallback ⟨0, 0, 0⟩).1, (C7_missing_tile_fallback ⟨0, 0, 0⟩).2.2.2⟩

/-- C10: when the provider fetch fails, `MapView.get_tile` with the
`IGNORE` policy returns `None` (no raster) instead of raising. -/
theorem C10_ignore_returns_none {γ : Type} (e : TileNotFoundData)
    (cat : List (List γ)) :
    MapView.get_tile (Except.error e) cat OnMissing.IGNORE = Except.ok none := rfl

/-- C9: the worker loop processes every command queued ahead of the `None`
sentinel no matter which commands fail (so no failure terminates the
loop), and each failing command's exception is logged paired with its
payload. -/
theorem C9_worker_loop_survives_failures {A E : Type}
    (run : CmdData A → Except E Unit) (cmds : List (Option (CmdData A))) :
    (MapView.tile_controller run cmds).map Prod.fst = queued_before_stop cmds
    ∧ ∀ p ∈ MapView.tile_controller run cmds,
        p.2 = if p.1.cmd = "call_method" then errOf (run p.1) else none := by
  induction cmds with
  | nil => exact ⟨rfl, by simp [MapView.tile_controller]⟩
  | cons c rest ih =>
    cases c with
    | none =>
        refine ⟨?_, by simp [MapView.tile_controller]⟩
        simp [MapView.tile_controller, queued_before_stop]
    | some d =>
        refine ⟨?_, ?_⟩
        · simp only [MapView.tile_controller, List.map_cons, queued_before_stop,
            List.takeWhile_cons, Option.isSome_some, if_true, List.filterMap_cons]
          simpa [queued_before_stop] using ih.1
        · intro p hp
          simp only [MapView.tile_controller, List.mem_cons] at hp
          rcases hp with h | h
          · subst h; rfl
          · exact ih.2 p h

/-- Witness for C9: with every method call failing, both commands ahead of
the sentinel are still processed, in order. -/
theorem C9_worker_loop_survives_failures_witness :
    ((MapView.tile_controller (fun _ => Except.error "boom")
        [some ⟨"call_method", "_add_tile", 0⟩,
         some ⟨"call_method", "_add_tiles_for_zoom", 1⟩, none]).map Prod.fst
      = queued_before_stop
          [some ⟨"call_method", "_add_tile", 0⟩,
           some ⟨"call_method", "_add_tiles_for_zoom", 1⟩, none])
    ∧ queued_before_stop
          [some (⟨"call_method", "_add_tile", 0⟩ : CmdData ℕ),
           some ⟨"call_method", "_add_tiles_for_zoom", 1⟩, none]
        = [⟨"call_method", "_add_tile", 0⟩, ⟨"call_method", "_add_tiles_for_zoom", 1⟩] :=
  ⟨(C9_worker_loop_survives_failures (fun _ => Except.error "boom")
      [some ⟨"call_method", "_add_tile", 0⟩,
       some ⟨"call_method", "_add_tiles_for_zoom", 1⟩, none]).1,
   by decide⟩

end Vismap
